import Mathlib

/-!
# Verification of the JobFilterApify text-similarity core

A shallow embedding, in Lean 4, of the scoring/filtering core of the
JobFilterApify repository (`job_filter_app.py`, `resume_parser.py`), together
with theorems settling the frozen claims about it.

Modelling conventions:
* Python strings are `List Char` (named `Str` below); `str.lower`,
  `re.findall (\w+ pattern)`, `str.split`, `str.strip` and the substring
  operator `in` are modelled character by character on the ASCII fragment
  the repository exercises (`Char.toLower`, `isAlphanum`, `isWhitespace`
  are the ASCII approximations of the Unicode Python behaviour).
* Python floats are modelled as exact rationals `ℚ`; the claims are about the
  exact algebraic form of the scores, and every constant in the code
  (0.8, 2.0, 0.5, 1.5, 1.2, 0.3, 0.2) is a short decimal, so the rational
  semantics is the intended reading of the formulas.
* `difflib.SequenceMatcher(None, a, b).ratio()` is modelled from the CPython
  implementation: junk is empty (the `isjunk` argument is `None`), the
  `autojunk` heuristic drops popular characters of `b` (length ≥ 200,
  count > len/100 + 1) from the match table, `find_longest_match` does the
  row-by-row scan with strict improvement (so ties pick the first best in
  lexicographic end-position order) followed by the two extension loops, and
  `get_matching_blocks` recursively splits around the longest match.  Loops
  are modelled with an explicit fuel that is proved (or by the loop variant,
  seen below, is exactly) sufficient.
* Python dicts are association lists with dict update/pop semantics; the
  mutable `JobFilterApp` state is threaded explicitly through the operations.
-/

set_option maxRecDepth 100000

abbrev Str := List Char

/-- Word character of the `\w` regex class (ASCII fragment): letters, digits,
underscore. -/
def isWordChar (c : Char) : Bool := c.isAlphanum || c == '_'

/-- Python `str.lower()` (ASCII fragment). -/
def lowerStr (s : Str) : Str := s.map Char.toLower

/-- Helper for `wordTokens`: accumulates the current (reversed) run of word
characters while scanning. -/
def tokensAux : Str → Str → List Str
  | [], [] => []
  | [], cur => [cur.reverse]
  | c :: rest, cur =>
    if isWordChar c then tokensAux rest (c :: cur)
    else if cur = [] then tokensAux rest []
    else cur.reverse :: tokensAux rest []

/-- Python `re.findall(r'\w+', s)`: the maximal nonempty runs of word
characters, in order, with multiplicity. -/
def wordTokens (s : Str) : List Str := tokensAux s []

/-- The set of word tokens of a string (Python `set(re.findall(r'\w+', s))`). -/
def tokenSet (s : Str) : Finset Str := (wordTokens s).toFinset

/-- Python substring test `p in s`. -/
def isSubstring (p s : Str) : Bool :=
  (List.range (s.length + 1)).any fun i => p.isPrefixOf (s.drop i)

/-- Helper for `splitWs`, mirroring `tokensAux` with whitespace as the
separator class. -/
def splitWsAux : Str → Str → List Str
  | [], [] => []
  | [], cur => [cur.reverse]
  | c :: rest, cur =>
    if c.isWhitespace then
      if cur = [] then splitWsAux rest []
      else cur.reverse :: splitWsAux rest []
    else splitWsAux rest (c :: cur)

/-- Python `str.split()` with no argument: split on runs of whitespace,
dropping empty pieces. -/
def splitWs (s : Str) : List Str := splitWsAux s []

/-- Python `str.strip()`: drop leading and trailing whitespace. -/
def stripWs (s : Str) : Str :=
  ((s.dropWhile Char.isWhitespace).reverse.dropWhile Char.isWhitespace).reverse

/-! ## The `difflib.SequenceMatcher` model

`calculate_similarity` falls back to
`SequenceMatcher(None, text1_lower, text2_lower).ratio()`.  The model below
follows CPython `difflib.py`. -/

/-- A character of `b` is "popular" (dropped from the match table by the
autojunk heuristic of `SequenceMatcher.__chain_b`) iff `len(b) >= 200` and it
occurs more than `len(b) // 100 + 1` times.  The junk set itself is empty
because the code passes `isjunk=None`. -/
def popularChar (b : Str) (c : Char) : Bool :=
  b.length ≥ 200 && b.count c > b.length / 100 + 1

/-- Whether cell `(i, j)` participates in the diagonal-run recurrence of
`find_longest_match`: the indices are inside the window on the left and
`j < bhi`, the characters agree, and `b j` is not dropped by autojunk.
(`i < ahi` is enforced by the enumeration of rows, not here: a chained cell
always lies on an earlier row, which was scanned.) -/
def cellOk (a b : Str) (alo blo bhi : Nat) (i j : Nat) : Bool :=
  alo ≤ i && blo ≤ j && j < bhi && i < a.length && j < b.length &&
  a.getD i ' ' == b.getD j ' ' && !(popularChar b (b.getD j ' '))

/-- The value `newj2len[j]` computed by `find_longest_match` when scanning row
`i`: the length of the diagonal run of matching, non-popular cells ending at
`(i, j)` and clipped at the window boundaries. -/
def runLen (a b : Str) (alo blo bhi : Nat) : Nat → Nat → Nat
  | 0, j => if cellOk a b alo blo bhi 0 j then 1 else 0
  | i + 1, 0 => if cellOk a b alo blo bhi (i + 1) 0 then 1 else 0
  | i + 1, j + 1 =>
    if cellOk a b alo blo bhi (i + 1) (j + 1) then
      runLen a b alo blo bhi i j + 1
    else 0

/-- The `(i, j)` cells of the window in the scan order of
`find_longest_match`: rows `alo ≤ i < ahi` ascending and, within a row,
`blo ≤ j < bhi` ascending (the `b2j` index lists are ascending). -/
def scanCells (alo ahi blo bhi : Nat) : List (Nat × Nat) :=
  (List.range' alo (ahi - alo)).flatMap fun i =>
    (List.range' blo (bhi - blo)).map fun j => (i, j)

/-- One update of the scan of `find_longest_match`: on strict improvement
(`if k > bestsize`) record the start of the run ending at the scanned cell. -/
def bestStep (a b : Str) (alo blo bhi : Nat) (best : Nat × Nat × Nat)
    (ij : Nat × Nat) : Nat × Nat × Nat :=
  if best.2.2 < runLen a b alo blo bhi ij.1 ij.2 then
    (ij.1 + 1 - runLen a b alo blo bhi ij.1 ij.2,
     ij.2 + 1 - runLen a b alo blo bhi ij.1 ij.2,
     runLen a b alo blo bhi ij.1 ij.2)
  else best

/-- The first phase of `find_longest_match`: fold over the scanned cells
keeping the best `(besti, bestj, bestsize)`, starting from `(alo, blo, 0)`. -/
def bestLoop (a b : Str) (alo ahi blo bhi : Nat) : Nat × Nat × Nat :=
  (scanCells alo ahi blo bhi).foldl (bestStep a b alo blo bhi) (alo, blo, 0)

/-- The first extension loop of `find_longest_match`
(`while besti > alo and bestj > blo and not isbjunk(...) and a[besti-1] == b[bestj-1]`;
the junk set is empty so `isbjunk` is constantly false, and the later junk
extension loops can never fire).  The fuel is `besti`, which is exactly the
loop variant: each iteration decrements `besti`, and when the fuel is 0 we
have `besti = 0` so the guard `alo < besti` is false anyway.  The two
in-bounds conjuncts are redundant on the windows the matcher visits
(`ahi ≤ len a`, `bhi ≤ len b`), where Python's indexing is defined; they only
keep the out-of-range `getD` defaults from fabricating a match on windows no
caller uses. -/
def extendLower (a b : Str) (alo blo : Nat) : Nat → Nat → Nat → Nat → Nat × Nat × Nat
  | 0, bi, bj, k => (bi, bj, k)
  | fuel + 1, bi, bj, k =>
    if alo < bi && blo < bj && a.getD (bi - 1) ' ' == b.getD (bj - 1) ' ' &&
        (bi - 1 < a.length && bj - 1 < b.length) then
      extendLower a b alo blo fuel (bi - 1) (bj - 1) (k + 1)
    else (bi, bj, k)

/-- The second extension loop of `find_longest_match`
(`while besti+bestsize < ahi and bestj+bestsize < bhi and a[...] == b[...]`).
The fuel `ahi` dominates the loop variant `ahi - (besti + bestsize)`:
each iteration increments `bestsize`, and the guard requires
`besti + bestsize < ahi`, which fails whenever the variant is 0.  As in
`extendLower`, the in-bounds conjuncts are redundant on the windows the
matcher visits. -/
def extendUpper (a b : Str) (ahi bhi bi bj : Nat) : Nat → Nat → Nat
  | 0, k => k
  | fuel + 1, k =>
    if bi + k < ahi && bj + k < bhi &&
        a.getD (bi + k) ' ' == b.getD (bj + k) ' ' &&
        (bi + k < a.length && bj + k < b.length) then
      extendUpper a b ahi bhi bi bj fuel (k + 1)
    else k

/-- `SequenceMatcher.find_longest_match(alo, ahi, blo, bhi)` with empty junk:
the best scanned diagonal run, extended on both sides over equal characters. -/
def findLongestMatch (a b : Str) (alo ahi blo bhi : Nat) : Nat × Nat × Nat :=
  let p := bestLoop a b alo ahi blo bhi
  let q := extendLower a b alo blo p.1 p.1 p.2.1 p.2.2
  (q.1, q.2.1, extendUpper a b ahi bhi q.1 q.2.1 ahi q.2.2)

/-- The total size of the matching blocks found by
`SequenceMatcher.get_matching_blocks` inside a window: the code splits the
window around the longest match and recurses on both sides; only the sum of
the block sizes matters for `ratio`.  The fuel bounds the recursion depth;
`windowMatches_fuel_stable` below shows any fuel above `ahi - alo` gives the
same value, so the top-level call with fuel `a.length + 1` computes the value
of the unbounded recursion. -/
def windowMatches (a b : Str) : Nat → Nat → Nat → Nat → Nat → Nat
  | 0, _, _, _, _ => 0
  | fuel + 1, alo, ahi, blo, bhi =>
    let m := findLongestMatch a b alo ahi blo bhi
    if m.2.2 = 0 then 0
    else
      m.2.2 +
        (if alo < m.1 ∧ blo < m.2.1 then
          windowMatches a b fuel alo m.1 blo m.2.1 else 0) +
        (if m.1 + m.2.2 < ahi ∧ m.2.1 + m.2.2 < bhi then
          windowMatches a b fuel (m.1 + m.2.2) ahi (m.2.1 + m.2.2) bhi else 0)

/-- `sum(size for block in get_matching_blocks())` for the whole strings. -/
def seqMatchTotal (a b : Str) : Nat :=
  windowMatches a b (a.length + 1) 0 a.length 0 b.length

/-- `SequenceMatcher.ratio()`: `2*M / (len(a)+len(b))`, and 1.0 when both
strings are empty (`_calculate_ratio`). -/
def seqRatioQ (a b : Str) : ℚ :=
  if a.length + b.length = 0 then 1
  else 2 * (seqMatchTotal a b : ℚ) / ((a.length : ℚ) + (b.length : ℚ))

/-! ### Window bounds for the matcher: the matched blocks stay inside the
window, so the total matched size is at most each window side. -/

lemma cellOk_bounds {a b : Str} {alo blo bhi i j : Nat}
    (h : cellOk a b alo blo bhi i j = true) :
    alo ≤ i ∧ blo ≤ j ∧ j < bhi := by
  simp only [cellOk, Bool.and_eq_true, decide_eq_true_eq] at h
  exact ⟨h.1.1.1.1.1.1, h.1.1.1.1.1.2, h.1.1.1.1.2⟩

lemma runLen_le_a (a b : Str) (alo blo bhi : Nat) :
    ∀ i j, runLen a b alo blo bhi i j ≤ i + 1 - alo := by
  intro i
  induction i with
  | zero =>
    intro j
    simp only [runLen]
    split
    · rename_i h; have := (cellOk_bounds h).1; omega
    · omega
  | succ i ih =>
    intro j
    cases j with
    | zero =>
      simp only [runLen]
      split
      · rename_i h; have := (cellOk_bounds h).1; omega
      · omega
    | succ j =>
      simp only [runLen]
      split
      · rename_i h
        have h1 := (cellOk_bounds h).1
        have h2 := ih j
        omega
      · omega

lemma runLen_le_b (a b : Str) (alo blo bhi : Nat) :
    ∀ i j, runLen a b alo blo bhi i j ≤ j + 1 - blo := by
  intro i
  induction i with
  | zero =>
    intro j
    simp only [runLen]
    split
    · rename_i h; have := (cellOk_bounds h).2.1; omega
    · omega
  | succ i ih =>
    intro j
    cases j with
    | zero =>
      simp only [runLen]
      split
      · rename_i h; have := (cellOk_bounds h).2.1; omega
      · omega
    | succ j =>
      simp only [runLen]
      split
      · rename_i h
        have h1 := (cellOk_bounds h).2.1
        have h2 := ih j
        omega
      · omega

lemma scanCells_mem {alo ahi blo bhi : Nat} {ij : Nat × Nat}
    (h : ij ∈ scanCells alo ahi blo bhi) :
    alo ≤ ij.1 ∧ ij.1 < ahi ∧ blo ≤ ij.2 ∧ ij.2 < bhi := by
  simp only [scanCells, List.mem_flatMap, List.mem_map, List.mem_range'_1] at h
  obtain ⟨i, hi, j, hj, rfl⟩ := h
  exact ⟨hi.1, by omega, hj.1, by omega⟩

/-- Invariant kept by all three phases of `find_longest_match`. -/
def InWindow (alo ahi blo bhi : Nat) (m : Nat × Nat × Nat) : Prop :=
  alo ≤ m.1 ∧ blo ≤ m.2.1 ∧ m.1 + m.2.2 ≤ ahi ∧ m.2.1 + m.2.2 ≤ bhi

lemma bestStep_preserves (a b : Str) {alo ahi blo bhi : Nat}
    {best : Nat × Nat × Nat} {ij : Nat × Nat}
    (hbest : InWindow alo ahi blo bhi best)
    (hi : ij.1 < ahi) (hj : ij.2 < bhi) :
    InWindow alo ahi blo bhi (bestStep a b alo blo bhi best ij) := by
  obtain ⟨b1, b2, b3, b4⟩ := hbest
  unfold bestStep
  split
  · have ra := runLen_le_a a b alo blo bhi ij.1 ij.2
    have rb := runLen_le_b a b alo blo bhi ij.1 ij.2
    show alo ≤ ij.1 + 1 - runLen a b alo blo bhi ij.1 ij.2 ∧
      blo ≤ ij.2 + 1 - runLen a b alo blo bhi ij.1 ij.2 ∧
      ij.1 + 1 - runLen a b alo blo bhi ij.1 ij.2
        + runLen a b alo blo bhi ij.1 ij.2 ≤ ahi ∧
      ij.2 + 1 - runLen a b alo blo bhi ij.1 ij.2
        + runLen a b alo blo bhi ij.1 ij.2 ≤ bhi
    omega
  · exact ⟨b1, b2, b3, b4⟩

lemma bestLoop_bounds (a b : Str) {alo ahi blo bhi : Nat}
    (h1 : alo ≤ ahi) (h2 : blo ≤ bhi) :
    InWindow alo ahi blo bhi (bestLoop a b alo ahi blo bhi) := by
  unfold bestLoop
  apply List.foldlRecOn (motive := InWindow alo ahi blo bhi)
  · show alo ≤ alo ∧ blo ≤ blo ∧ alo + 0 ≤ ahi ∧ blo + 0 ≤ bhi
    omega
  · intro best hbest ij hij
    obtain ⟨_, hi2, _, hj2⟩ := scanCells_mem hij
    exact bestStep_preserves a b hbest hi2 hj2

lemma extendLower_bounds (a b : Str) (alo blo : Nat) :
    ∀ fuel bi bj k, alo ≤ bi → blo ≤ bj →
      (extendLower a b alo blo fuel bi bj k).1 + (extendLower a b alo blo fuel bi bj k).2.2
          = bi + k ∧
      (extendLower a b alo blo fuel bi bj k).2.1 + (extendLower a b alo blo fuel bi bj k).2.2
          = bj + k ∧
      alo ≤ (extendLower a b alo blo fuel bi bj k).1 ∧
      blo ≤ (extendLower a b alo blo fuel bi bj k).2.1 := by
  intro fuel
  induction fuel with
  | zero => intro bi bj k h1 h2; exact ⟨rfl, rfl, h1, h2⟩
  | succ fuel ih =>
    intro bi bj k h1 h2
    simp only [extendLower]
    split
    · rename_i hc
      simp only [Bool.and_eq_true, decide_eq_true_eq] at hc
      have hbi : alo < bi := hc.1.1.1
      have hbj : blo < bj := hc.1.1.2
      have := ih (bi - 1) (bj - 1) (k + 1) (by omega) (by omega)
      refine ⟨by omega, by omega, this.2.2.1, this.2.2.2⟩
    · exact ⟨rfl, rfl, h1, h2⟩

lemma extendUpper_bounds (a b : Str) (ahi bhi bi bj : Nat) :
    ∀ fuel k, bi + k ≤ ahi → bj + k ≤ bhi →
      bi + extendUpper a b ahi bhi bi bj fuel k ≤ ahi ∧
      bj + extendUpper a b ahi bhi bi bj fuel k ≤ bhi := by
  intro fuel
  induction fuel with
  | zero => intro k h1 h2; exact ⟨h1, h2⟩
  | succ fuel ih =>
    intro k h1 h2
    simp only [extendUpper]
    split
    · rename_i hc
      simp only [Bool.and_eq_true, decide_eq_true_eq] at hc
      exact ih (k + 1) (by omega) (by omega)
    · exact ⟨h1, h2⟩

lemma findLongestMatch_bounds (a b : Str) {alo ahi blo bhi : Nat}
    (h1 : alo ≤ ahi) (h2 : blo ≤ bhi) :
    InWindow alo ahi blo bhi (findLongestMatch a b alo ahi blo bhi) := by
  unfold findLongestMatch
  obtain ⟨p1, p2, p3, p4⟩ := bestLoop_bounds a b h1 h2
  set p := bestLoop a b alo ahi blo bhi with hp
  obtain ⟨q1, q2, q3, q4⟩ := extendLower_bounds a b alo blo p.1 p.1 p.2.1 p.2.2 p1 p2
  set q := extendLower a b alo blo p.1 p.1 p.2.1 p.2.2 with hq
  obtain ⟨r1, r2⟩ :=
    extendUpper_bounds a b ahi bhi q.1 q.2.1 ahi q.2.2 (by omega) (by omega)
  exact ⟨q3, q4, r1, r2⟩

lemma windowMatches_le_a (a b : Str) :
    ∀ fuel alo ahi blo bhi, alo ≤ ahi → blo ≤ bhi →
      windowMatches a b fuel alo ahi blo bhi ≤ ahi - alo := by
  intro fuel
  induction fuel with
  | zero => intro alo ahi blo bhi _ _; simp [windowMatches]
  | succ fuel ih =>
    intro alo ahi blo bhi h1 h2
    simp only [windowMatches]
    obtain ⟨m1, m2, m3, m4⟩ := findLongestMatch_bounds a b h1 h2
    set m := findLongestMatch a b alo ahi blo bhi with hm
    split
    · omega
    · rename_i hk
      have L : (if alo < m.1 ∧ blo < m.2.1 then
          windowMatches a b fuel alo m.1 blo m.2.1 else 0) ≤ m.1 - alo := by
        split
        · rename_i hw; exact ih alo m.1 blo m.2.1 (by omega) (by omega)
        · omega
      have R : (if m.1 + m.2.2 < ahi ∧ m.2.1 + m.2.2 < bhi then
          windowMatches a b fuel (m.1 + m.2.2) ahi (m.2.1 + m.2.2) bhi else 0)
            ≤ ahi - (m.1 + m.2.2) := by
        split
        · rename_i hw; exact ih _ _ _ _ (by omega) (by omega)
        · omega
      omega

lemma windowMatches_le_b (a b : Str) :
    ∀ fuel alo ahi blo bhi, alo ≤ ahi → blo ≤ bhi →
      windowMatches a b fuel alo ahi blo bhi ≤ bhi - blo := by
  intro fuel
  induction fuel with
  | zero => intro alo ahi blo bhi _ _; simp [windowMatches]
  | succ fuel ih =>
    intro alo ahi blo bhi h1 h2
    simp only [windowMatches]
    obtain ⟨m1, m2, m3, m4⟩ := findLongestMatch_bounds a b h1 h2
    set m := findLongestMatch a b alo ahi blo bhi with hm
    split
    · omega
    · rename_i hk
      have L : (if alo < m.1 ∧ blo < m.2.1 then
          windowMatches a b fuel alo m.1 blo m.2.1 else 0) ≤ m.2.1 - blo := by
        split
        · rename_i hw; exact ih alo m.1 blo m.2.1 (by omega) (by omega)
        · omega
      have R : (if m.1 + m.2.2 < ahi ∧ m.2.1 + m.2.2 < bhi then
          windowMatches a b fuel (m.1 + m.2.2) ahi (m.2.1 + m.2.2) bhi else 0)
            ≤ bhi - (m.2.1 + m.2.2) := by
        split
        · rename_i hw; exact ih _ _ _ _ (by omega) (by omega)
        · omega
      omega

/-- Any fuel strictly above the window width computes the same total, so the
fuel in `seqMatchTotal` is harmless: the recursion of
`get_matching_blocks` strictly shrinks the `a`-side window. -/
lemma windowMatches_fuel_stable (a b : Str) :
    ∀ f1 f2 alo ahi blo bhi, alo ≤ ahi → blo ≤ bhi →
      ahi - alo < f1 → ahi - alo < f2 →
      windowMatches a b f1 alo ahi blo bhi = windowMatches a b f2 alo ahi blo bhi := by
  intro f1
  induction f1 with
  | zero => intro f2 alo ahi blo bhi _ _ hf1 _; omega
  | succ f1 ih =>
    intro f2 alo ahi blo bhi h1 h2 hf1 hf2
    cases f2 with
    | zero => omega
    | succ f2 =>
      simp only [windowMatches]
      obtain ⟨m1, m2, m3, m4⟩ := findLongestMatch_bounds a b h1 h2
      set m := findLongestMatch a b alo ahi blo bhi with hm
      split
      · rfl
      · rename_i hk
        have hL : (if alo < m.1 ∧ blo < m.2.1 then
            windowMatches a b f1 alo m.1 blo m.2.1 else 0)
            = (if alo < m.1 ∧ blo < m.2.1 then
            windowMatches a b f2 alo m.1 blo m.2.1 else 0) := by
          split
          · rename_i hw; exact ih f2 alo m.1 blo m.2.1 (by omega) (by omega)
              (by omega) (by omega)
          · rfl
        have hR : (if m.1 + m.2.2 < ahi ∧ m.2.1 + m.2.2 < bhi then
            windowMatches a b f1 (m.1 + m.2.2) ahi (m.2.1 + m.2.2) bhi else 0)
            = (if m.1 + m.2.2 < ahi ∧ m.2.1 + m.2.2 < bhi then
            windowMatches a b f2 (m.1 + m.2.2) ahi (m.2.1 + m.2.2) bhi else 0) := by
          split
          · rename_i hw; exact ih f2 _ _ _ _ (by omega) (by omega)
              (by omega) (by omega)
          · rfl
        rw [hL, hR]

lemma seqMatchTotal_le_a (a b : Str) : seqMatchTotal a b ≤ a.length :=
  le_trans (windowMatches_le_a a b _ 0 a.length 0 b.length (by omega) (by omega))
    (by omega)

lemma seqMatchTotal_le_b (a b : Str) : seqMatchTotal a b ≤ b.length :=
  le_trans (windowMatches_le_b a b _ 0 a.length 0 b.length (by omega) (by omega))
    (by omega)

lemma seqRatioQ_nonneg (a b : Str) : 0 ≤ seqRatioQ a b := by
  unfold seqRatioQ
  split
  · norm_num
  · rename_i h
    apply div_nonneg
    · positivity
    · positivity

lemma seqRatioQ_le_one (a b : Str) : seqRatioQ a b ≤ 1 := by
  unfold seqRatioQ
  split
  · norm_num
  · rename_i h
    rw [div_le_one (by exact_mod_cast Nat.pos_of_ne_zero h)]
    have ha := seqMatchTotal_le_a a b
    have hb := seqMatchTotal_le_b a b
    have : 2 * seqMatchTotal a b ≤ a.length + b.length := by omega
    exact_mod_cast this

/-! ## `JobFilterApp.calculate_similarity` -/

/-- `job_filter_app.py`, `calculate_similarity(text1, text2)`:
empty check, case-folded containment at 0.8, word-token overlap normalised by
the larger token set, then the `SequenceMatcher` ratio fallback. -/
def calculate_similarity (text1 text2 : Str) : ℚ :=
  if text1 = [] ∨ text2 = [] then 0
  else if isSubstring (lowerStr text2) (lowerStr text1)
      || isSubstring (lowerStr text1) (lowerStr text2) then 0.8
  else if (tokenSet (lowerStr text1) ∩ tokenSet (lowerStr text2)).Nonempty then
    ((tokenSet (lowerStr text1) ∩ tokenSet (lowerStr text2)).card : ℚ) /
      ((max (tokenSet (lowerStr text1)).card (tokenSet (lowerStr text2)).card : ℕ) : ℚ)
  else seqRatioQ (lowerStr text1) (lowerStr text2)

/-- Division guarded against a zero denominator, surfacing Python's
`ZeroDivisionError` as an `Except` error. -/
def safeDiv (x y : ℚ) : Except String ℚ :=
  if y = 0 then .error "ZeroDivisionError" else .ok (x / y)

/-- `calculate_similarity` with its one division routed through `safeDiv`,
used to express that the division cannot fault. -/
def calculate_similarityE (text1 text2 : Str) : Except String ℚ :=
  if text1 = [] ∨ text2 = [] then .ok 0
  else if isSubstring (lowerStr text2) (lowerStr text1)
      || isSubstring (lowerStr text1) (lowerStr text2) then .ok 0.8
  else if (tokenSet (lowerStr text1) ∩ tokenSet (lowerStr text2)).Nonempty then
    safeDiv ((tokenSet (lowerStr text1) ∩ tokenSet (lowerStr text2)).card : ℚ)
      ((max (tokenSet (lowerStr text1)).card (tokenSet (lowerStr text2)).card : ℕ) : ℚ)
  else .ok (seqRatioQ (lowerStr text1) (lowerStr text2))

lemma calculate_similarityE_ok (a b : Str) :
    calculate_similarityE a b = .ok (calculate_similarity a b) := by
  unfold calculate_similarityE calculate_similarity
  split
  · rfl
  split
  · rfl
  split
  · rename_i hne
    have h1 : (tokenSet (lowerStr a)).Nonempty :=
      hne.mono Finset.inter_subset_left
    have hmax : 0 < max (tokenSet (lowerStr a)).card (tokenSet (lowerStr b)).card := by
      have := Finset.card_pos.mpr h1
      omega
    unfold safeDiv
    rw [if_neg]
    simp only [Nat.cast_eq_zero]
    omega
  · rfl

/-! ### Tier characterisation of `calculate_similarity` -/

lemma sim_of_empty {a b : Str} (h : a = [] ∨ b = []) :
    calculate_similarity a b = 0 := by
  unfold calculate_similarity
  rw [if_pos h]

lemma sim_of_substr {a b : Str} (h1 : ¬(a = [] ∨ b = []))
    (h2 : (isSubstring (lowerStr b) (lowerStr a)
      || isSubstring (lowerStr a) (lowerStr b)) = true) :
    calculate_similarity a b = 0.8 := by
  unfold calculate_similarity
  rw [if_neg h1, if_pos h2]

lemma sim_of_tokens {a b : Str} (h1 : ¬(a = [] ∨ b = []))
    (h2 : (isSubstring (lowerStr b) (lowerStr a)
      || isSubstring (lowerStr a) (lowerStr b)) = false)
    (h3 : (tokenSet (lowerStr a) ∩ tokenSet (lowerStr b)).Nonempty) :
    calculate_similarity a b =
      ((tokenSet (lowerStr a) ∩ tokenSet (lowerStr b)).card : ℚ) /
        ((max (tokenSet (lowerStr a)).card (tokenSet (lowerStr b)).card : ℕ) : ℚ) := by
  unfold calculate_similarity
  rw [if_neg h1, if_neg (by simp [h2]), if_pos h3]

lemma sim_of_fallback {a b : Str} (h1 : ¬(a = [] ∨ b = []))
    (h2 : (isSubstring (lowerStr b) (lowerStr a)
      || isSubstring (lowerStr a) (lowerStr b)) = false)
    (h3 : tokenSet (lowerStr a) ∩ tokenSet (lowerStr b) = ∅) :
    calculate_similarity a b = seqRatioQ (lowerStr a) (lowerStr b) := by
  unfold calculate_similarity
  rw [if_neg h1, if_neg (by simp [h2]),
    if_neg (by rw [h3]; exact Finset.not_nonempty_empty)]

lemma sim_nonneg_le_one (a b : Str) :
    0 ≤ calculate_similarity a b ∧ calculate_similarity a b ≤ 1 := by
  by_cases he : a = [] ∨ b = []
  · rw [sim_of_empty he]; norm_num
  by_cases hs : (isSubstring (lowerStr b) (lowerStr a)
      || isSubstring (lowerStr a) (lowerStr b)) = true
  · rw [sim_of_substr he hs]; norm_num
  have hs2 : (isSubstring (lowerStr b) (lowerStr a)
      || isSubstring (lowerStr a) (lowerStr b)) = false := by
    simpa using hs
  by_cases hn : (tokenSet (lowerStr a) ∩ tokenSet (lowerStr b)).Nonempty
  · rw [sim_of_tokens he hs2 hn]
    have hle : (tokenSet (lowerStr a) ∩ tokenSet (lowerStr b)).card ≤
        max (tokenSet (lowerStr a)).card (tokenSet (lowerStr b)).card :=
      le_trans (Finset.card_le_card Finset.inter_subset_left) (le_max_left _ _)
    have hpos : 0 < max (tokenSet (lowerStr a)).card (tokenSet (lowerStr b)).card := by
      have := Finset.card_pos.mpr (hn.mono Finset.inter_subset_left)
      omega
    constructor
    · apply div_nonneg <;> positivity
    · rw [div_le_one (by exact_mod_cast hpos)]
      exact_mod_cast hle
  · rw [sim_of_fallback he hs2 (Finset.not_nonempty_iff_eq_empty.mp hn)]
    exact ⟨seqRatioQ_nonneg _ _, seqRatioQ_le_one _ _⟩

/-- **C1.** `calculate_similarity` follows the four-tier priority algorithm:
empty strings give 0; case-folded containment gives exactly 0.8; otherwise a
non-empty intersection of lowercase word-token sets gives
`|intersection| / max(|tokens_a|, |tokens_b|)`; otherwise the character-level
sequence-matching ratio of the case-folded strings; and the result is always
in [0, 1]. -/
theorem calculate_similarity_four_tiers : ∀ a b : Str,
    (a = [] ∨ b = [] → calculate_similarity a b = 0) ∧
    (a ≠ [] → b ≠ [] →
      (isSubstring (lowerStr b) (lowerStr a)
        || isSubstring (lowerStr a) (lowerStr b)) = true →
      calculate_similarity a b = 0.8) ∧
    (a ≠ [] → b ≠ [] →
      (isSubstring (lowerStr b) (lowerStr a)
        || isSubstring (lowerStr a) (lowerStr b)) = false →
      (tokenSet (lowerStr a) ∩ tokenSet (lowerStr b)).Nonempty →
      calculate_similarity a b =
        ((tokenSet (lowerStr a) ∩ tokenSet (lowerStr b)).card : ℚ) /
          ((max (tokenSet (lowerStr a)).card (tokenSet (lowerStr b)).card : ℕ) : ℚ)) ∧
    (a ≠ [] → b ≠ [] →
      (isSubstring (lowerStr b) (lowerStr a)
        || isSubstring (lowerStr a) (lowerStr b)) = false →
      tokenSet (lowerStr a) ∩ tokenSet (lowerStr b) = ∅ →
      calculate_similarity a b = seqRatioQ (lowerStr a) (lowerStr b)) ∧
    0 ≤ calculate_similarity a b ∧ calculate_similarity a b ≤ 1 := by
  intro a b
  refine ⟨sim_of_empty, ?_, ?_, ?_, sim_nonneg_le_one a b⟩
  · intro h1 h2 h3
    exact sim_of_substr (by tauto) h3
  · intro h1 h2 h3 h4
    exact sim_of_tokens (by tauto) h3 h4
  · intro h1 h2 h3 h4
    exact sim_of_fallback (by tauto) h3 h4

/-- Witness for `calculate_similarity_four_tiers` at the concrete pair from
the specification: a case-insensitive containment scores exactly 0.8. -/
theorem calculate_similarity_four_tiers_witness :
    calculate_similarity "Senior Electrical Engineer".toList
      "electrical engineer".toList = 0.8 :=
  (calculate_similarity_four_tiers _ _).2.1 (by decide) (by decide) (by decide)

/-- The condition under which `calculate_similarity` reaches the
`SequenceMatcher` character fallback: both strings nonempty, no case-folded
containment, empty word-token intersection. -/
def reachesCharFallback (a b : Str) : Prop :=
  a ≠ [] ∧ b ≠ [] ∧
  (isSubstring (lowerStr b) (lowerStr a)
    || isSubstring (lowerStr a) (lowerStr b)) = false ∧
  tokenSet (lowerStr a) ∩ tokenSet (lowerStr b) = ∅

instance (a b : Str) : Decidable (reachesCharFallback a b) := by
  unfold reachesCharFallback
  infer_instance

/-- **C5 counterexample.** `calculate_similarity` is *not* symmetric: on the
pair `("abqcd", "cdabzq")`, which reaches the character fallback, the
`SequenceMatcher` ratio is 6/11 one way and 4/11 the other (the matcher finds
the blocks `ab`+`q` in one direction but only `cd` in the other, because its
tie-break between the equal-length crossing blocks `ab` and `cd` depends on
the argument order). -/
theorem calculate_similarity_asymmetric :
    calculate_similarity "abqcd".toList "cdabzq".toList ≠
      calculate_similarity "cdabzq".toList "abqcd".toList := by
  with_unfolding_all decide

/-- **C5 (amended).** `calculate_similarity` is symmetric whenever the pair is
settled before the character fallback — in the empty-string tier, the
substring-containment tier, and the token-overlap tier; only the
character-level fallback can break symmetry. -/
theorem calculate_similarity_symm_before_fallback : ∀ a b : Str,
    ¬ reachesCharFallback a b →
    calculate_similarity a b = calculate_similarity b a := by
  intro a b h
  by_cases he : a = [] ∨ b = []
  · rw [sim_of_empty he, sim_of_empty he.symm]
  by_cases hs : (isSubstring (lowerStr b) (lowerStr a)
      || isSubstring (lowerStr a) (lowerStr b)) = true
  · rw [sim_of_substr he hs,
      sim_of_substr (by tauto) (by rw [Bool.or_comm] at hs; exact hs)]
  have hs2 : (isSubstring (lowerStr b) (lowerStr a)
      || isSubstring (lowerStr a) (lowerStr b)) = false := by simpa using hs
  by_cases hn : (tokenSet (lowerStr a) ∩ tokenSet (lowerStr b)).Nonempty
  · rw [sim_of_tokens he hs2 hn,
      sim_of_tokens (by tauto) (by rw [Bool.or_comm] at hs2; exact hs2)
        (by rwa [Finset.inter_comm] at hn)]
    rw [Finset.inter_comm (tokenSet (lowerStr b)),
      Nat.max_comm (tokenSet (lowerStr b)).card]
  · exact absurd
      ⟨fun ha => he (Or.inl ha), fun hb => he (Or.inr hb), hs2,
        Finset.not_nonempty_iff_eq_empty.mp hn⟩ h

/-- Witness for `calculate_similarity_symm_before_fallback`: a token-overlap
pair is scored symmetrically. -/
theorem calculate_similarity_symm_before_fallback_witness :
    calculate_similarity "red green".toList "green blue".toList =
      calculate_similarity "green blue".toList "red green".toList :=
  calculate_similarity_symm_before_fallback _ _ (by decide)

/-! ## Job records and the `JobFilterApp` engine

A job record is a Python dict loaded from JSON: an insertion-ordered
association list from string keys to string or numeric values (the two value
shapes the engine reads and writes). -/

inductive JVal where
  | str (s : Str)
  | num (q : ℚ)
deriving DecidableEq, Inhabited

abbrev JobDict := List (Str × JVal)

/-- Python `d[key]` lookup (`None`-free: `Option`). -/
def dictGet : JobDict → Str → Option JVal
  | [], _ => none
  | (k, v) :: rest, key => if k = key then some v else dictGet rest key

/-- Python `key in d`. -/
def dictHasKey (d : JobDict) (key : Str) : Bool := (dictGet d key).isSome

/-- Python `d[key] = v`: replace in place if the key exists (keeping insertion
order), otherwise append. -/
def dictSet (d : JobDict) (key : Str) (v : JVal) : JobDict :=
  if dictHasKey d key then
    d.map fun p => if p.1 = key then (key, v) else p
  else d ++ [(key, v)]

/-- Python `d.pop(key, None)`: drop the entry for `key` if present. -/
def dictPop (d : JobDict) (key : Str) : JobDict :=
  d.filter fun p => !(p.1 == key)

/-- Python `d.copy()`: a fresh, independent shallow copy (value semantics in
this embedding, so the copy is the same association list). -/
def dictCopy (d : JobDict) : JobDict := d

/-- Python `job.get(key, '')` as used by the scoring code, which then treats
the value as a string: absent fields read as the empty string.  (A present
non-string field would raise in Python; theorems that quantify over records
restrict the scored fields to strings via `scoredFieldsStr`.) -/
def getStrD (d : JobDict) (key : Str) : Str :=
  match dictGet d key with
  | some (.str s) => s
  | _ => []

def titleKey : Str := "title".toList
def descriptionTextKey : Str := "descriptionText".toList
def jobFunctionKey : Str := "jobFunction".toList
def industriesKey : Str := "industries".toList
def scoreKey : Str := "_similarity_score".toList
def appliedStatusKey : Str := "_applied_status".toList
def idKey : Str := "id".toList

/-- A scored field is a string when present (the shape `matches_job_function`
can evaluate without a Python `AttributeError`). -/
def strWhenPresent (d : JobDict) (key : Str) : Bool :=
  match dictGet d key with
  | some (.num _) => false
  | _ => true

/-- The four fields read by `matches_job_function` are strings when present. -/
def scoredFieldsStr (d : JobDict) : Prop :=
  strWhenPresent d titleKey = true ∧ strWhenPresent d descriptionTextKey = true ∧
  strWhenPresent d jobFunctionKey = true ∧ strWhenPresent d industriesKey = true

/-- The keyword-matching block of `matches_job_function` (lines 344–353):
tokenize the lowercased query with `\w+`; count (with multiplicity) the
tokens longer than 3 characters occurring as substrings of the lowercased
`f"{title} {description}"`; divide by `max(len(keywords), 1)`, or 0 when the
query has no tokens. -/
def keyword_score (job : JobDict) (job_function : Str) : ℚ :=
  if wordTokens (lowerStr job_function) = [] then 0
  else
    (((wordTokens (lowerStr job_function)).filter fun kw =>
        kw.length > 3 && isSubstring kw
          (lowerStr (getStrD job titleKey ++ [' '] ++
            getStrD job descriptionTextKey))).length : ℚ) /
      ((max (wordTokens (lowerStr job_function)).length 1 : ℕ) : ℚ)

/-- The combined score of `matches_job_function`: the Python
`max(title*2.0, desc*0.5, func*1.5, industries*1.0, keyword*1.2)`. -/
def max_similarity (job : JobDict) (job_function : Str) : ℚ :=
  max (calculate_similarity (getStrD job titleKey) job_function * 2.0)
    (max (calculate_similarity (getStrD job descriptionTextKey) job_function * 0.5)
      (max (calculate_similarity (getStrD job jobFunctionKey) job_function * 1.5)
        (max (calculate_similarity (getStrD job industriesKey) job_function * 1.0)
          (keyword_score job job_function * 1.2))))

/-- `matches_job_function(job, job_function, threshold)`:
`(max_similarity >= threshold, max_similarity)`. -/
def matches_job_function (job : JobDict) (job_function : Str) (threshold : ℚ) :
    Bool × ℚ :=
  (decide (threshold ≤ max_similarity job job_function),
   max_similarity job job_function)

/-! ### A stable sort modelling Python `list.sort`

Python's sort is stable; a stable sort by a total preorder has a unique
output, so the insertion sort below (which inserts each element after the
already-placed elements it ties with) computes exactly the list `list.sort`
produces.  For `reverse=True` the code below is called with the flipped
comparison, matching Python's reversed-but-still-stable semantics. -/

def insertStable (le : α → α → Bool) (x : α) : List α → List α
  | [] => [x]
  | y :: ys => if le x y && !(le y x) then x :: y :: ys else y :: insertStable le x ys

def sortStable (le : α → α → Bool) (l : List α) : List α :=
  l.foldl (fun acc x => insertStable le x acc) []

lemma insertStable_perm (le : α → α → Bool) (x : α) :
    ∀ l : List α, (insertStable le x l).Perm (x :: l) := by
  intro l
  induction l with
  | nil => simp [insertStable]
  | cons y ys ih =>
    simp only [insertStable]
    split
    · exact List.Perm.refl _
    · exact (ih.cons y).trans (List.Perm.swap x y ys)

lemma sortStable_fold_perm (le : α → α → Bool) :
    ∀ (l acc : List α), (l.foldl (fun acc x => insertStable le x acc) acc).Perm (acc ++ l) := by
  intro l
  induction l with
  | nil => intro acc; simp
  | cons x xs ih =>
    intro acc
    simp only [List.foldl_cons]
    refine (ih (insertStable le x acc)).trans ?_
    have h1 : (insertStable le x acc ++ xs).Perm ((x :: acc) ++ xs) :=
      (insertStable_perm le x acc).append_right xs
    refine h1.trans ?_
    simpa using (@List.perm_middle _ x acc xs).symm

lemma sortStable_perm (le : α → α → Bool) (l : List α) :
    (sortStable le l).Perm l := by
  simpa using sortStable_fold_perm le l []

/-! ### The engine state and its operations -/

/-- The part of the `JobFilterApp` state the core claims are about:
the loaded records, the current filtered result set, the active sort key and
direction (`__init__` lines 30–31), and the id keys of the application
tracker (used only as an external boolean lookup). -/
structure AppState where
  jobsData : List JobDict
  filteredJobs : List JobDict
  sortColumn : Str
  sortReverse : Bool
  applications : List Str
deriving DecidableEq

/-- The state after `__init__` with the given loaded jobs and application
tracker: no filter ran yet, `sort_column = '_similarity_score'`,
`sort_reverse = True`. -/
def initState (jobs : List JobDict) (apps : List Str) : AppState :=
  { jobsData := jobs, filteredJobs := [], sortColumn := scoreKey,
    sortReverse := true, applications := apps }

/-- `x.get('_similarity_score', 0)`, the sort key of `filter_jobs`. -/
def scoreOf (d : JobDict) : ℚ :=
  match dictGet d scoreKey with
  | some (.num q) => q
  | _ => 0

/-- The per-record body of the `filter_jobs` loop: score each record, keep a
copy of the matching ones with the `'_similarity_score'` field attached. -/
def filteredList (jobs : List JobDict) (q : Str) (threshold : ℚ) : List JobDict :=
  jobs.filterMap fun job =>
    if (matches_job_function job q threshold).1 then
      some (dictSet (dictCopy job) scoreKey
        (.num (matches_job_function job q threshold).2))
    else none

/-- `JobFilterApp.filter_jobs` (lines 366–398) on the modelled state: early
return when no jobs are loaded or the stripped query is empty; otherwise
rebuild `filtered_jobs` from scored copies and sort by score descending.
(The query-history bookkeeping and the UI refresh touch only the
display/persistence collaborators and are outside the modelled core.) -/
def filter_jobs (s : AppState) (query : Str) (threshold : ℚ) : AppState :=
  if s.jobsData = [] then s
  else if stripWs query = [] then s
  else { s with
    filteredJobs :=
      sortStable (fun x y => decide (scoreOf y ≤ scoreOf x))
        (filteredList s.jobsData (stripWs query) threshold) }

/-- The `column_map` of `sort_by_column` with its `.get(col, col)` default. -/
def columnMap (col : Str) : Str :=
  if col = "applied".toList then appliedStatusKey
  else if col = "similarity".toList then scoreKey
  else if col = "title".toList then titleKey
  else if col = "company".toList then "companyName".toList
  else if col = "location".toList then "location".toList
  else if col = "employment_type".toList then "employmentType".toList
  else if col = "job_function".toList then jobFunctionKey
  else if col = "seniority".toList then "seniorityLevel".toList
  else col

/-- Python `<=` on the sort-key values: strings lexicographically by code
point, numbers numerically.  A mixed comparison raises `TypeError` in Python;
the app only sorts homogeneous key columns, and the model returns `false`
there. -/
def lexLe : Str → Str → Bool
  | [], _ => true
  | _ :: _, [] => false
  | c :: cs, d :: ds => if c = d then lexLe cs ds else decide (c < d)

def jvalLeB : JVal → JVal → Bool
  | .str s, .str t => lexLe s t
  | .num p, .num q => decide (p ≤ q)
  | _, _ => false

/-- `x.get(sort_key, '')`, the sort key of `sort_by_column`. -/
def keyValOf (d : JobDict) (key : Str) : JVal :=
  (dictGet d key).getD (.str [])

/-- Lines 486–488 of `sort_by_column`: when sorting the `applied` column,
first write a numeric `'_applied_status'` field into every filtered record
(1 when the record's id is in the application tracker, else 0). -/
def appliedAugment (s : AppState) (col : Str) : List JobDict :=
  if col = "applied".toList then
    s.filteredJobs.map fun j =>
      dictSet j appliedStatusKey
        (.num (if s.applications.contains (getStrD j idKey) then 1 else 0))
  else s.filteredJobs

/-- Lines 493–497 of `sort_by_column`: toggle the direction when re-selecting
the active sort key, otherwise default to descending exactly for the
`similarity` column. -/
def nextReverse (s : AppState) (col : Str) : Bool :=
  if s.sortColumn = columnMap col then !s.sortReverse
  else decide (col = "similarity".toList)

/-- `JobFilterApp.sort_by_column` (lines 468–506): early return on an empty
result set, the `applied` augmentation, the direction update, and the stable
sort of `filtered_jobs` by the mapped key. -/
def sort_by_column (s : AppState) (col : Str) : AppState :=
  if s.filteredJobs = [] then s
  else { s with
    sortColumn := columnMap col
    sortReverse := nextReverse s col
    filteredJobs :=
      sortStable (fun x y =>
          if nextReverse s col then
            jvalLeB (keyValOf y (columnMap col)) (keyValOf x (columnMap col))
          else jvalLeB (keyValOf x (columnMap col)) (keyValOf y (columnMap col)))
        (appliedAugment s col) }

/-- `JobFilterApp.export_results` (lines 832–841), the data transform only:
copies of the filtered records with `'_similarity_score'` popped (nothing is
exported when the result set is empty). -/
def export_results (s : AppState) : List JobDict :=
  if s.filteredJobs = [] then []
  else s.filteredJobs.map fun j => dictPop (dictCopy j) scoreKey

/-! ### Engine lemmas -/

lemma filterMap_if_eq (p : α → Bool) (f : α → β) (l : List α) :
    (l.filterMap fun x => if p x then some (f x) else none) = (l.filter p).map f := by
  induction l with
  | nil => rfl
  | cons x xs ih =>
    by_cases h : p x <;>
      simp [List.filterMap_cons, List.filter_cons, h, ih]

lemma filteredList_eq_filter_map (jobs : List JobDict) (q : Str) (th : ℚ) :
    filteredList jobs q th =
      ((jobs.filter fun j => (matches_job_function j q th).1).map
        fun j => dictSet (dictCopy j) scoreKey
          (.num (matches_job_function j q th).2)) := by
  unfold filteredList
  exact filterMap_if_eq _ _ jobs

/-- **C2.** The combined score returned by `matches_job_function` is the
maximum of title×2.0, description×0.5, job-function×1.5, industries×1.0 and
keyword-coverage×1.2; the boolean result is exactly `combined ≥ threshold`;
and `filter_jobs` rebuilds the result set as precisely the scored copies of
the matching records (non-matching records are dropped), up to the order
given by the subsequent score sort. -/
theorem matches_job_function_max_and_filter :
    (∀ (job : JobDict) (q : Str) (th : ℚ), scoredFieldsStr job →
      (matches_job_function job q th).2
        = max (calculate_similarity (getStrD job titleKey) q * 2.0)
            (max (calculate_similarity (getStrD job descriptionTextKey) q * 0.5)
              (max (calculate_similarity (getStrD job jobFunctionKey) q * 1.5)
                (max (calculate_similarity (getStrD job industriesKey) q * 1.0)
                  (keyword_score job q * 1.2)))) ∧
      ((matches_job_function job q th).1 = true ↔
        th ≤ (matches_job_function job q th).2)) ∧
    ∀ (s : AppState) (q : Str) (th : ℚ), s.jobsData ≠ [] → stripWs q ≠ [] →
      (filter_jobs s q th).filteredJobs.Perm
        ((s.jobsData.filter fun j => (matches_job_function j (stripWs q) th).1).map
          fun j => dictSet (dictCopy j) scoreKey
            (.num (matches_job_function j (stripWs q) th).2)) := by
  constructor
  · intro job q th _
    constructor
    · rfl
    · simp [matches_job_function]
  · intro s q th h1 h2
    unfold filter_jobs
    rw [if_neg h1, if_neg h2]
    dsimp only
    exact (sortStable_perm _ _).trans
      (by rw [filteredList_eq_filter_map])

/-- Witness for `matches_job_function_max_and_filter` on a one-record corpus:
the record with title equal to the query matches at threshold 0.3 and the
result set is exactly its scored copy. -/
theorem matches_job_function_max_and_filter_witness :
    (filter_jobs (initState [[(titleKey, JVal.str "electrical engineer".toList)]] [])
        "electrical engineer".toList (3/10)).filteredJobs.Perm
      ((([[(titleKey, JVal.str "electrical engineer".toList)]].filter
          fun j => (matches_job_function j
            (stripWs "electrical engineer".toList) (3/10)).1).map
        fun j => dictSet (dictCopy j) scoreKey
          (.num (matches_job_function j
            (stripWs "electrical engineer".toList) (3/10)).2))) :=
  matches_job_function_max_and_filter.2 _ _ _ (by decide) (by decide)

/-- The keyword-coverage formula as claim C3 states it: the fraction, among
only the `\w+` query tokens longer than 3 characters, of those occurring as
substrings of the case-folded title+description, with short tokens excluded
from numerator and denominator alike. -/
def keywordCoverageSpec (job : JobDict) (q : Str) : ℚ :=
  if ((wordTokens (lowerStr q)).filter fun kw => kw.length > 3) = [] then 0
  else
    (((wordTokens (lowerStr q)).filter fun kw =>
        kw.length > 3 && isSubstring kw
          (lowerStr (getStrD job titleKey ++ [' '] ++
            getStrD job descriptionTextKey))).length : ℚ) /
      ((((wordTokens (lowerStr q)).filter fun kw => kw.length > 3)).length : ℚ)

/-- **C3 counterexample.** For the job titled "software engineering" and the
query "c engineering", the code's keyword score is 1/2 — the short token "c"
is excluded from the numerator but still counted in the denominator
`max(len(keywords), 1)` — while the claimed formula (short tokens excluded
from both sides) gives 1/1. -/
theorem keyword_score_denominator_cx :
    keyword_score [(titleKey, JVal.str "software engineering".toList)]
        "c engineering".toList ≠
      keywordCoverageSpec [(titleKey, JVal.str "software engineering".toList)]
        "c engineering".toList := by
  with_unfolding_all decide

/-- The keyword-coverage formula the code actually computes, stated
independently: matched long tokens (with multiplicity) over *all* `\w+`
query tokens (with multiplicity), and 0 for a token-free query. -/
def keywordCoverageAmended (job : JobDict) (q : Str) : ℚ :=
  if wordTokens (lowerStr q) = [] then 0
  else
    (((wordTokens (lowerStr q)).filter fun kw =>
        kw.length > 3 && isSubstring kw
          (lowerStr (getStrD job titleKey ++ [' '] ++
            getStrD job descriptionTextKey))).length : ℚ) /
      ((wordTokens (lowerStr q)).length : ℚ)

/-- **C3 (amended).** The keyword-coverage score equals the number of `\w+`
query tokens longer than 3 characters occurring as substrings of the
case-folded title+description (with multiplicity), divided by the number of
*all* `\w+` query tokens — tokens of length ≤ 3 are skipped in the numerator
but still counted in the denominator — and the score is 0 when the query has
no tokens or when no token qualifies. -/
theorem keyword_score_amended : ∀ (job : JobDict) (q : Str),
    keyword_score job q = keywordCoverageAmended job q ∧
    (((wordTokens (lowerStr q)).filter fun kw =>
        kw.length > 3 && isSubstring kw
          (lowerStr (getStrD job titleKey ++ [' '] ++
            getStrD job descriptionTextKey))) = [] →
      keyword_score job q = 0) := by
  intro job q
  constructor
  · unfold keyword_score keywordCoverageAmended
    split
    · rfl
    · rename_i h
      have hlen : 1 ≤ (wordTokens (lowerStr q)).length := by
        cases hw : wordTokens (lowerStr q) with
        | nil => exact absurd hw h
        | cons x xs => simp
      rw [Nat.max_eq_left hlen]
  · intro hnone
    unfold keyword_score
    split
    · rfl
    · rw [hnone]
      simp

/-- Witness for `keyword_score_amended`: a query of only short tokens scores
0 because no token qualifies. -/
theorem keyword_score_amended_witness :
    keyword_score [] "ab cd".toList = 0 :=
  (keyword_score_amended [] _).2 (by decide)

/-! ### Sorting direction (claim C4) -/

/-- **C4 counterexample.** On a fresh result set (one record filtered at
threshold 0.3, no sort yet) the very first `sort_by_column('similarity')`
sorts *ascending*: `__init__` already sets
`sort_column = '_similarity_score'` with `sort_reverse = True`, so the first
click on the similarity column takes the toggle branch and flips the
direction to `False`, not the claimed descending default. -/
theorem sort_similarity_first_not_descending :
    (filter_jobs (initState [[(titleKey, JVal.str "electrical engineer".toList)]] [])
        "electrical engineer".toList (3/10)).filteredJobs ≠ [] ∧
    (sort_by_column
        (filter_jobs (initState [[(titleKey, JVal.str "electrical engineer".toList)]] [])
          "electrical engineer".toList (3/10))
        "similarity".toList).sortReverse = false := by
  with_unfolding_all decide

/-- **C4 (amended).** On a nonempty result set: re-selecting the active sort
key toggles the direction; a newly selected key starts ascending except the
similarity column, which starts descending; hence, from a fresh result set,
the first sort on "title" is ascending and the second descending — but the
very first sort on "similarity" *toggles* the initial descending score order
of `__init__` and is therefore ascending. -/
theorem sort_by_column_direction :
    (∀ (s : AppState) (col : Str), s.filteredJobs ≠ [] →
      s.sortColumn = columnMap col →
      (sort_by_column s col).sortReverse = !s.sortReverse) ∧
    (∀ (s : AppState) (col : Str), s.filteredJobs ≠ [] →
      s.sortColumn ≠ columnMap col →
      (sort_by_column s col).sortReverse = decide (col = "similarity".toList)) ∧
    (sort_by_column
        (filter_jobs (initState [[(titleKey, JVal.str "electrical engineer".toList)]] [])
          "electrical engineer".toList (3/10))
        "title".toList).sortReverse = false ∧
    (sort_by_column (sort_by_column
        (filter_jobs (initState [[(titleKey, JVal.str "electrical engineer".toList)]] [])
          "electrical engineer".toList (3/10))
        "title".toList) "title".toList).sortReverse = true ∧
    (sort_by_column
        (filter_jobs (initState [[(titleKey, JVal.str "electrical engineer".toList)]] [])
          "electrical engineer".toList (3/10))
        "similarity".toList).sortReverse = false := by
  refine ⟨?_, ?_, ?_⟩
  · intro s col hne hcol
    unfold sort_by_column
    rw [if_neg hne]
    simp [nextReverse, hcol]
  · intro s col hne hcol
    unfold sort_by_column
    rw [if_neg hne]
    simp [nextReverse, hcol]
  · with_unfolding_all decide

/-- Witness for `sort_by_column_direction`: re-selecting the active "title"
column on a concrete state toggles `sort_reverse` from `false` to `true`. -/
theorem sort_by_column_direction_witness :
    (sort_by_column
      { jobsData := [], filteredJobs := [[(titleKey, JVal.str [])]],
        sortColumn := titleKey, sortReverse := false, applications := [] }
      "title".toList).sortReverse = !false :=
  sort_by_column_direction.1 _ _ (by decide) (by decide)

/-! ### Frame properties of `filter_jobs` (claim C6) -/

/-- **C6.** `filter_jobs` never changes the loaded source collection: the
records scored and kept are fresh copies (`job.copy()`) and only the
`filtered_jobs` result list of the state is rebuilt, so `jobs_data` — and
with it every source record — is left exactly as received. -/
theorem filter_jobs_preserves_input : ∀ (s : AppState) (q : Str) (th : ℚ),
    (filter_jobs s q th).jobsData = s.jobsData ∧
    (filter_jobs s q th).applications = s.applications := by
  intro s q th
  unfold filter_jobs
  split
  · exact ⟨rfl, rfl⟩
  split
  · exact ⟨rfl, rfl⟩
  · exact ⟨rfl, rfl⟩

/-! ### Scored copies, sorting, and export (claim C7) -/

lemma dictGet_none_iff (d : JobDict) (key : Str) :
    dictGet d key = none ↔ ∀ p ∈ d, p.1 ≠ key := by
  induction d with
  | nil => simp [dictGet]
  | cons p rest ih =>
    obtain ⟨k, v⟩ := p
    simp only [dictGet]
    split
    · rename_i h
      subst h
      simp
    · rename_i h
      simp [ih, h]

lemma dictPop_dictSet_of_absent {d : JobDict} {key : Str}
    (h : dictGet d key = none) (v : JVal) :
    dictPop (dictSet d key v) key = d := by
  have hnk : dictHasKey d key = false := by
    simp [dictHasKey, h]
  unfold dictSet
  rw [if_neg (by simp [hnk])]
  unfold dictPop
  rw [List.filter_append]
  have h2 : (d.filter fun p => !(p.1 == key)) = d := by
    rw [List.filter_eq_self]
    intro p hp
    have := (dictGet_none_iff d key).mp h p hp
    simp [this]
  rw [h2]
  simp

/-- The records `filter_jobs` can ever place into the result set: scored
copies of source records. -/
def scoredFrom (jobs : List JobDict) (q : Str) (th : ℚ) (r : JobDict) : Prop :=
  ∃ j ∈ jobs, r = dictSet (dictCopy j) scoreKey
    (.num (matches_job_function j q th).2)

lemma filteredList_scoredFrom {jobs : List JobDict} {q : Str} {th : ℚ} {r : JobDict}
    (hr : r ∈ filteredList jobs q th) : scoredFrom jobs q th r := by
  unfold filteredList at hr
  rw [List.mem_filterMap] at hr
  obtain ⟨j, hj, hjr⟩ := hr
  by_cases h : (matches_job_function j q th).1 <;> simp [h] at hjr
  exact ⟨j, hj, hjr.symm⟩

lemma filter_jobs_scoredFrom {jobs : List JobDict} {apps : List Str} {q : Str}
    {th : ℚ} {r : JobDict}
    (hr : r ∈ (filter_jobs (initState jobs apps) q th).filteredJobs) :
    scoredFrom jobs (stripWs q) th r := by
  unfold filter_jobs at hr
  split at hr
  · exact absurd hr (by simp [initState])
  split at hr
  · exact absurd hr (by simp [initState])
  · dsimp only at hr
    exact filteredList_scoredFrom (((sortStable_perm _ _).mem_iff).mp hr)

lemma sort_by_column_mem {s : AppState} {col : Str}
    (hcol : col ≠ "applied".toList) {r : JobDict}
    (hr : r ∈ (sort_by_column s col).filteredJobs) : r ∈ s.filteredJobs := by
  unfold sort_by_column at hr
  split at hr
  · exact hr
  · dsimp only at hr
    have := ((sortStable_perm _ _).mem_iff).mp hr
    rwa [appliedAugment, if_neg hcol] at this

lemma foldl_sort_mem {P : JobDict → Prop} :
    ∀ (ops : List Str) (s : AppState), (∀ c ∈ ops, c ≠ "applied".toList) →
      (∀ r ∈ s.filteredJobs, P r) →
      ∀ r ∈ (ops.foldl sort_by_column s).filteredJobs, P r := by
  intro ops
  induction ops with
  | nil => intro s _ hs r hr; exact hs r hr
  | cons c cs ih =>
    intro s hops hs r hr
    refine ih (sort_by_column s c) (fun d hd => hops d (by simp [hd])) ?_ r hr
    intro r₂ hr₂
    exact hs r₂ (sort_by_column_mem (hops c (by simp)) hr₂)

/-- **C7 counterexample.** After filtering a one-record corpus and then
sorting by the "applied" column, the exported record is *not* the original:
`sort_by_column('applied')` writes a numeric `'_applied_status'` field into
the filtered records and `export_results` strips only
`'_similarity_score'`, so stripping the one score field does not recover the
source record verbatim. -/
theorem export_after_applied_sort_cx :
    export_results (sort_by_column
        (filter_jobs (initState
            [[(titleKey, JVal.str "electrical engineer".toList),
              (idKey, JVal.str "1".toList)]] [])
          "electrical engineer".toList (3/10))
        "applied".toList) ≠
      [[(titleKey, JVal.str "electrical engineer".toList),
        (idKey, JVal.str "1".toList)]] := by
  with_unfolding_all decide

/-- **C7 (amended).** After filtering and any sequence of `sort_by_column`
operations on columns *other than* "applied", every record of the result set
is a source record plus exactly the one numeric `'_similarity_score'` field
(provided the source records do not already use that reserved key), and
popping that field — as `export_results` does — recovers the original record
verbatim; in particular every exported record is a source record.  Sorting
by "applied" breaks this by adding a second synthetic field that export does
not strip. -/
theorem filtered_records_are_scored_copies :
    ∀ (jobs : List JobDict) (apps : List Str) (q : Str) (th : ℚ) (ops : List Str),
      (∀ c ∈ ops, c ≠ "applied".toList) →
      (∀ j ∈ jobs, dictGet j scoreKey = none) →
      (∀ r ∈ (ops.foldl sort_by_column
          (filter_jobs (initState jobs apps) q th)).filteredJobs,
        ∃ j ∈ jobs,
          r = dictSet (dictCopy j) scoreKey
            (.num (matches_job_function j (stripWs q) th).2) ∧
          dictPop (dictCopy r) scoreKey = j) ∧
      ∀ e ∈ export_results (ops.foldl sort_by_column
          (filter_jobs (initState jobs apps) q th)), e ∈ jobs := by
  intro jobs apps q th ops hops habs
  have hinv : ∀ r ∈ (ops.foldl sort_by_column
      (filter_jobs (initState jobs apps) q th)).filteredJobs,
      scoredFrom jobs (stripWs q) th r :=
    foldl_sort_mem ops _ hops (fun r hr => filter_jobs_scoredFrom hr)
  have hrec : ∀ r ∈ (ops.foldl sort_by_column
      (filter_jobs (initState jobs apps) q th)).filteredJobs,
      ∃ j ∈ jobs,
        r = dictSet (dictCopy j) scoreKey
          (.num (matches_job_function j (stripWs q) th).2) ∧
        dictPop (dictCopy r) scoreKey = j := by
    intro r hr
    obtain ⟨j, hj, hrj⟩ := hinv r hr
    refine ⟨j, hj, hrj, ?_⟩
    rw [hrj]
    exact dictPop_dictSet_of_absent (habs j hj) _
  refine ⟨hrec, ?_⟩
  intro e he
  unfold export_results at he
  split at he
  · simp at he
  · rw [List.mem_map] at he
    obtain ⟨r, hr, hre⟩ := he
    obtain ⟨j, hj, _, hpop⟩ := hrec r hr
    rw [← hre]
    rw [hpop]
    exact hj

/-- Witness for `filtered_records_are_scored_copies`: the one-record corpus,
filtered and then sorted by "title", yields only the scored copy of the
source record, and stripping the score recovers it. -/
theorem filtered_records_are_scored_copies_witness :
    (∀ r ∈ (["title".toList].foldl sort_by_column
        (filter_jobs (initState
            [[(titleKey, JVal.str "electrical engineer".toList)]] [])
          "electrical engineer".toList (3/10))).filteredJobs,
      ∃ j ∈ [[(titleKey, JVal.str "electrical engineer".toList)]],
        r = dictSet (dictCopy j) scoreKey
          (.num (matches_job_function j
            (stripWs "electrical engineer".toList) (3/10)).2) ∧
        dictPop (dictCopy r) scoreKey = j) ∧
    ∀ e ∈ export_results (["title".toList].foldl sort_by_column
        (filter_jobs (initState
            [[(titleKey, JVal.str "electrical engineer".toList)]] [])
          "electrical engineer".toList (3/10))),
      e ∈ [[(titleKey, JVal.str "electrical engineer".toList)]] :=
  filtered_records_are_scored_copies _ _ _ _ _ (by decide) (by decide)

/-! ## The `ResumeParser` model (`resume_parser.py`)

The skill vocabulary, transcribed from the `SKILLS_DATABASE` set literal
(the literal lists `'matlab'` and `'data analysis'` twice; the Python set —
like `toFinset` below — keeps one copy). -/

def skillsDBList : List Str := [
  "python".toList, "java".toList, "javascript".toList, "typescript".toList,
  "c++".toList, "c#".toList, "ruby".toList, "php".toList, "swift".toList,
  "kotlin".toList, "go".toList, "rust".toList, "scala".toList, "r".toList,
  "matlab".toList, "perl".toList, "shell".toList, "bash".toList,
  "html".toList, "css".toList, "react".toList, "angular".toList, "vue".toList,
  "node.js".toList, "express".toList, "django".toList, "flask".toList,
  "spring".toList, "asp.net".toList, "jquery".toList, "bootstrap".toList,
  "tailwind".toList, "webpack".toList, "npm".toList, "yarn".toList,
  "sql".toList, "mysql".toList, "postgresql".toList, "mongodb".toList,
  "redis".toList, "oracle".toList, "sqlite".toList, "cassandra".toList,
  "dynamodb".toList, "elasticsearch".toList, "neo4j".toList, "firebase".toList,
  "aws".toList, "azure".toList, "gcp".toList, "docker".toList,
  "kubernetes".toList, "jenkins".toList, "gitlab".toList, "github".toList,
  "terraform".toList, "ansible".toList, "ci/cd".toList, "devops".toList,
  "cloud".toList,
  "machine learning".toList, "deep learning".toList, "tensorflow".toList,
  "pytorch".toList, "keras".toList, "scikit-learn".toList,
  "pandas".toList, "numpy".toList, "data analysis".toList,
  "data science".toList, "nlp".toList, "computer vision".toList,
  "artificial intelligence".toList, "ai".toList, "ml".toList,
  "neural networks".toList,
  "electrical engineering".toList, "mechanical engineering".toList,
  "civil engineering".toList, "chemical engineering".toList,
  "computer engineering".toList, "software engineering".toList,
  "systems engineering".toList, "industrial engineering".toList,
  "aerospace engineering".toList,
  "autocad".toList, "solidworks".toList, "matlab".toList, "simulink".toList,
  "plc".toList, "scada".toList, "pcb design".toList,
  "circuit design".toList, "embedded systems".toList,
  "microcontrollers".toList, "fpga".toList, "vhdl".toList, "verilog".toList,
  "cad".toList, "fem".toList, "cfd".toList, "ansys".toList, "catia".toList,
  "project management".toList, "agile".toList, "scrum".toList,
  "kanban".toList, "product management".toList,
  "business analysis".toList, "data analysis".toList, "excel".toList,
  "powerpoint".toList, "tableau".toList,
  "power bi".toList, "salesforce".toList, "sap".toList, "erp".toList,
  "crm".toList,
  "linux".toList, "unix".toList, "windows".toList, "macos".toList,
  "git".toList, "api".toList, "rest".toList, "graphql".toList,
  "microservices".toList, "testing".toList, "debugging".toList,
  "troubleshooting".toList]

/-- The `JOB_ROLES` keyword set. -/
def jobRolesList : List Str := [
  "software".toList, "developer".toList, "engineer".toList,
  "programmer".toList, "architect".toList, "analyst".toList,
  "scientist".toList, "researcher".toList, "manager".toList,
  "director".toList, "lead".toList, "senior".toList,
  "junior".toList, "intern".toList, "consultant".toList,
  "specialist".toList, "technician".toList, "designer".toList,
  "administrator".toList, "coordinator".toList, "supervisor".toList]

/-- The pattern body built by `_extract_skills`:
`re.escape(skill.replace('-', r'[-\s]?'))`.  The `replace` rewrites each
hyphen to the seven-character text `[-\s]?` *before* `re.escape`, and the
escape then neutralises every metacharacter — so the final regex matches the
resulting character sequence literally. -/
def skillPattern (skill : Str) : Str :=
  skill.flatMap fun c => if c = '-' then "[-\\s]?".toList else [c]

/-- Word-character test of position `i` (false beyond either end), for the
`\b` assertions. -/
def wordAt (s : Str) (i : Nat) : Bool :=
  match s.get? i with
  | some c => isWordChar c
  | none => false

/-- The `\b` zero-width assertion at position `i` of `s`: the word-ness of
the characters on the two sides differs (the positions before the start and
after the end count as non-word). -/
def boundaryAt (s : Str) (i : Nat) : Bool :=
  (if i = 0 then false else wordAt s (i - 1)) != wordAt s i

/-- `re.search(r'\b' + escaped + r'\b', text_lower, re.IGNORECASE)` for the
literal pattern produced by `skillPattern`: some position carries the literal
with word boundaries on both ends.  (Both the vocabulary and `text_lower`
are lowercase, so `IGNORECASE` adds nothing.) -/
def skillRegexHits (skill text : Str) : Bool :=
  (List.range (text.length + 1)).any fun p =>
    (skillPattern skill).isPrefixOf (text.drop p) &&
    boundaryAt text p && boundaryAt text (p + (skillPattern skill).length)

/-- `ResumeParser._extract_skills` (lines 195–207): the vocabulary entries
whose built regex matches somewhere in the lowercased resume text. -/
def extract_skills (text : Str) : Finset Str :=
  skillsDBList.toFinset.filter fun sk => skillRegexHits sk (lowerStr text) = true

/-- `'\n'`-split of `str.split('\n')` (empty pieces kept). -/
def splitNlAux : Str → Str → List Str
  | [], cur => [cur.reverse]
  | c :: rest, cur =>
    if c = '\n' then cur.reverse :: splitNlAux rest []
    else splitNlAux rest (c :: cur)

def splitNl (s : Str) : List Str := splitNlAux s []

/-- `re.sub(r'(?:19|20)\d{2}', '', line)`: delete the non-overlapping
occurrences of a four-digit year starting 19 or 20, scanning left to
right. -/
def removeYears : Str → Str
  | c0 :: c1 :: c2 :: c3 :: rest =>
    if ((c0 = '1' ∧ c1 = '9') ∨ (c0 = '2' ∧ c1 = '0')) ∧
        c2.isDigit ∧ c3.isDigit then
      removeYears rest
    else c0 :: removeYears (c1 :: c2 :: c3 :: rest)
  | s => s

/-- `re.sub(r'[-–—]', ' ', s)`: dashes to spaces. -/
def dashesToSpaces (s : Str) : Str :=
  s.map fun c => if c = '-' ∨ c = '–' ∨ c = '—' then ' ' else c

/-- `' '.join(s.split())`: collapse whitespace runs. -/
def normaliseSpaces (s : Str) : Str := List.intercalate [' '] (splitWs s)

/-- `ResumeParser._extract_job_titles` (lines 239–258): lowercase the text,
split into lines, keep the stripped lines containing a job-role keyword as a
substring whose cleaned form (years removed, dashes to spaces, whitespace
normalised) has length strictly between 10 and 100; first 5. -/
def extract_job_titles (text : Str) : List Str :=
  (((splitNl (lowerStr text)).map stripWs).filterMap fun line =>
    if jobRolesList.any (fun role => isSubstring role line) then
      if 10 < (normaliseSpaces (dashesToSpaces (removeYears line))).length ∧
          (normaliseSpaces (dashesToSpaces (removeYears line))).length < 100 then
        some (normaliseSpaces (dashesToSpaces (removeYears line)))
      else none
    else none).take 5

/-- The resume-profile state read by `calculate_job_match_score`:
`self.resume_text`, `self.skills`, `self.job_titles`. -/
structure ResumeState where
  resumeText : Str
  skills : Finset Str
  jobTitles : List Str

/-- The assignments of `parse_resume` (lines 126–128) that feed
`calculate_job_match_score`. -/
def parseFeatures (text : Str) : ResumeState :=
  { resumeText := text, skills := extract_skills text,
    jobTitles := extract_job_titles text }

/-- `(job_description + " " + job_title).lower()`. -/
def jobTextLower (job_description job_title : Str) : Str :=
  lowerStr (job_description ++ [' '] ++ job_title)

/-- The skills "found in the job text": vocabulary entries occurring as plain
substrings of the lowercased job text (`if skill in job_text_lower`). -/
def jobSkillsIn (jt : Str) : Finset Str :=
  skillsDBList.toFinset.filter fun sk => isSubstring sk jt = true

/-- `ResumeParser.calculate_job_match_score` (lines 311–354): 0 on an empty
resume; otherwise the clamp at 1.0 of skill-overlap×0.5 plus capped
word-overlap×0.3 plus the flat 0.8×0.2 title bonus, where the bonus fires
when some whitespace token of an extracted candidate title occurs as a
*substring* of the lowercased job title. -/
def calculate_job_match_score (st : ResumeState)
    (job_description job_title : Str) : ℚ :=
  if st.resumeText = [] then 0
  else
    min
      ((if (jobSkillsIn (jobTextLower job_description job_title)).Nonempty then
          ((st.skills ∩ jobSkillsIn (jobTextLower job_description job_title)).card : ℚ) /
            ((jobSkillsIn (jobTextLower job_description job_title)).card : ℚ) * 0.5
        else 0) +
       min ((((splitWs (lowerStr st.resumeText)).toFinset ∩
            (splitWs (jobTextLower job_description job_title)).toFinset).card : ℚ) /
          ((max (splitWs (jobTextLower job_description job_title)).toFinset.card 1 : ℕ) : ℚ))
         1 * 0.3 +
       (if st.jobTitles.any (fun et => (splitWs et).any fun w =>
            isSubstring w (lowerStr job_title)) then (0.8 : ℚ) else 0) * 0.2)
      1

/-- **C8 (code evaluated at the failing input).** On the claim's own example
text the extracted skill set is exactly {python, react, docker} — the word
boundaries do exclude partial-word matches ("daily" does not trigger "ai",
"dockerized" would not trigger "docker").  But on text containing
"scikit-learn" *no* skill is extracted: because `re.escape` runs *after*
`replace('-', r'[-\s]?')`, the pattern demands the literal characters
`scikit[-\s]?learn`, so the hyphenated vocabulary entry can never match —
the hyphen is not treated as an optional hyphen-or-space as the claim (and
the code's own "common variations" comment) intend. -/
theorem extract_skills_hyphen_never_matches :
    extract_skills "Experienced with Python, React and Docker".toList =
      ({"python".toList, "react".toList, "docker".toList} : Finset Str) ∧
    extract_skills "Uses scikit-learn daily".toList = ∅ := by
  decide

/-- The job-fit score as claim C9 states it: identical to the code's formula
except that the flat title bonus fires when an extracted candidate title
*shares a whitespace token* with the job title. -/
def matchScoreSpecC9 (st : ResumeState) (job_description job_title : Str) : ℚ :=
  min
    ((if (jobSkillsIn (jobTextLower job_description job_title)).Nonempty then
        ((st.skills ∩ jobSkillsIn (jobTextLower job_description job_title)).card : ℚ) /
          ((jobSkillsIn (jobTextLower job_description job_title)).card : ℚ) * 0.5
      else 0) +
     min ((((splitWs (lowerStr st.resumeText)).toFinset ∩
          (splitWs (jobTextLower job_description job_title)).toFinset).card : ℚ) /
        ((max (splitWs (jobTextLower job_description job_title)).toFinset.card 1 : ℕ) : ℚ))
       1 * 0.3 +
     (if st.jobTitles.any (fun et => (splitWs et).any fun w =>
          (splitWs (lowerStr job_title)).contains w) then (0.8 : ℚ) else 0) * 0.2)
    1

/-- **C9 counterexample.** For the resume "senior software engineer" (whose
extracted candidate title is "senior software engineer") and the job title
"Engineering Manager", the code pays the 0.8×0.2 bonus — the token
"engineer" occurs as a *substring* of "engineering" — although the two
titles share no word, so the code's score (4/25) differs from the claimed
shares-a-word formula (0). -/
theorem job_match_bonus_cx :
    calculate_job_match_score (parseFeatures "senior software engineer".toList)
        [] "Engineering Manager".toList ≠
      matchScoreSpecC9 (parseFeatures "senior software engineer".toList)
        [] "Engineering Manager".toList := by
  with_unfolding_all decide

/-- The job-fit score formula with the bonus condition the code actually
implements: some whitespace token of an extracted candidate title occurs as
a substring of the lowercased job title. -/
def matchScoreAmendedC9 (st : ResumeState) (job_description job_title : Str) : ℚ :=
  min
    ((if (jobSkillsIn (jobTextLower job_description job_title)).Nonempty then
        ((st.skills ∩ jobSkillsIn (jobTextLower job_description job_title)).card : ℚ) /
          ((jobSkillsIn (jobTextLower job_description job_title)).card : ℚ) * 0.5
      else 0) +
     min ((((splitWs (lowerStr st.resumeText)).toFinset ∩
          (splitWs (jobTextLower job_description job_title)).toFinset).card : ℚ) /
        ((max (splitWs (jobTextLower job_description job_title)).toFinset.card 1 : ℕ) : ℚ))
       1 * 0.3 +
     (if st.jobTitles.any (fun et => (splitWs et).any fun w =>
          isSubstring w (lowerStr job_title)) then (0.8 : ℚ) else 0) * 0.2)
    1

/-- **C9 (amended).** On a non-empty resume, `calculate_job_match_score` is
the clamp at 1.0 of skill-overlap×0.5 plus capped word-overlap×0.3 plus a
flat 0.8×0.2 bonus paid when any whitespace token of an extracted candidate
title occurs as a *substring* of the lowercased job title (not when the
titles share a word); and the result always lies in [0, 1]. -/
theorem calculate_job_match_score_amended :
    ∀ (st : ResumeState) (jd jt : Str),
      (st.resumeText ≠ [] →
        calculate_job_match_score st jd jt = matchScoreAmendedC9 st jd jt) ∧
      0 ≤ calculate_job_match_score st jd jt ∧
      calculate_job_match_score st jd jt ≤ 1 := by
  intro st jd jt
  refine ⟨?_, ?_⟩
  · intro h
    unfold calculate_job_match_score matchScoreAmendedC9
    rw [if_neg h]
  · unfold calculate_job_match_score
    split
    · norm_num
    · constructor
      · refine le_min (add_nonneg (add_nonneg ?_ ?_) ?_) (by norm_num)
        · split
          · positivity
          · norm_num
        · refine mul_nonneg (le_min ?_ (by norm_num)) (by norm_num)
          positivity
        · refine mul_nonneg ?_ (by norm_num)
          split <;> norm_num
      · exact min_le_right _ _

/-- Witness for `calculate_job_match_score_amended` at the counterexample
profile: the resume is non-empty, so the amended formula applies. -/
theorem calculate_job_match_score_amended_witness :
    calculate_job_match_score (parseFeatures "senior software engineer".toList)
        [] "Engineering Manager".toList =
      matchScoreAmendedC9 (parseFeatures "senior software engineer".toList)
        [] "Engineering Manager".toList :=
  (calculate_job_match_score_amended _ _ _).1 (by decide)

/-! ## Role suggestion (`_suggest_job_roles`) and the division guards -/

/-- The `role_mappings` table of `_suggest_job_roles` (lines 282–295), in
insertion order. -/
def roleMappings : List (Str × List Str) := [
  ("Software Engineer".toList,
    ["python".toList, "java".toList, "javascript".toList,
     "programming".toList, "software".toList]),
  ("Data Scientist".toList,
    ["python".toList, "machine learning".toList, "data analysis".toList,
     "tensorflow".toList, "pandas".toList]),
  ("DevOps Engineer".toList,
    ["docker".toList, "kubernetes".toList, "aws".toList, "azure".toList,
     "ci/cd".toList, "jenkins".toList]),
  ("Full Stack Developer".toList,
    ["react".toList, "node.js".toList, "javascript".toList, "html".toList,
     "css".toList, "mongodb".toList]),
  ("Frontend Developer".toList,
    ["react".toList, "angular".toList, "vue".toList, "javascript".toList,
     "html".toList, "css".toList]),
  ("Backend Developer".toList,
    ["python".toList, "java".toList, "node.js".toList, "sql".toList,
     "api".toList, "rest".toList]),
  ("Machine Learning Engineer".toList,
    ["machine learning".toList, "tensorflow".toList, "pytorch".toList,
     "python".toList, "deep learning".toList]),
  ("Electrical Engineer".toList,
    ["electrical engineering".toList, "circuit design".toList,
     "pcb".toList, "embedded systems".toList]),
  ("Mechanical Engineer".toList,
    ["mechanical engineering".toList, "autocad".toList,
     "solidworks".toList, "cad".toList]),
  ("Business Analyst".toList,
    ["business analysis".toList, "sql".toList, "excel".toList,
     "data analysis".toList, "tableau".toList]),
  ("Product Manager".toList,
    ["product management".toList, "agile".toList, "scrum".toList,
     "project management".toList]),
  ("Cloud Engineer".toList,
    ["aws".toList, "azure".toList, "gcp".toList, "cloud".toList,
     "terraform".toList])]

/-- The `role_scores` loop of `_suggest_job_roles`: roles with a positive
match count, scored `|required ∩ skills| / |required|`, in table order. -/
def roleScoresList (entries : List (Str × List Str)) (skills : Finset Str) :
    List (Str × ℚ) :=
  entries.filterMap fun rm =>
    if 0 < (rm.2.toFinset ∩ skills).card then
      some (rm.1, ((rm.2.toFinset ∩ skills).card : ℚ) / (rm.2.toFinset.card : ℚ))
    else none

/-- `ResumeParser._suggest_job_roles` (lines 276–309): score the mapped
roles against the lowercased skill set, stable-sort by score descending,
keep the top 5 with score > 0.2. -/
def suggest_job_roles (skills : Finset Str) : List Str :=
  ((sortStable (fun x y => decide ((y.2 : ℚ) ≤ x.2))
      (roleScoresList roleMappings (skills.image lowerStr))).take 5).filterMap
    fun rs => if (0.2 : ℚ) < rs.2 then some rs.1 else none

/-- `roleScoresList` with its division routed through `safeDiv`. -/
def roleScoresListE : List (Str × List Str) → Finset Str →
    Except String (List (Str × ℚ))
  | [], _ => .ok []
  | rm :: rest, skills =>
    if 0 < (rm.2.toFinset ∩ skills).card then
      match safeDiv ((rm.2.toFinset ∩ skills).card : ℚ) (rm.2.toFinset.card : ℚ) with
      | .error e => .error e
      | .ok sc =>
        match roleScoresListE rest skills with
        | .error e => .error e
        | .ok tail => .ok ((rm.1, sc) :: tail)
    else roleScoresListE rest skills

lemma roleScoresListE_ok :
    ∀ (entries : List (Str × List Str)) (skills : Finset Str),
      roleScoresListE entries skills = .ok (roleScoresList entries skills) := by
  intro entries
  induction entries with
  | nil => intro skills; rfl
  | cons rm rest ih =>
    intro skills
    simp only [roleScoresListE, roleScoresList, List.filterMap_cons]
    split
    · rename_i h
      have hpos : 0 < rm.2.toFinset.card :=
        lt_of_lt_of_le h (Finset.card_le_card Finset.inter_subset_left)
      rw [safeDiv, if_neg (by exact_mod_cast Nat.pos_iff_ne_zero.mp hpos)]
      have := ih skills
      unfold roleScoresList at this
      rw [this]
    · exact ih skills

/-- `keyword_score` with its division routed through `safeDiv`. -/
def keyword_scoreE (job : JobDict) (job_function : Str) : Except String ℚ :=
  if wordTokens (lowerStr job_function) = [] then .ok 0
  else
    safeDiv
      (((wordTokens (lowerStr job_function)).filter fun kw =>
          kw.length > 3 && isSubstring kw
            (lowerStr (getStrD job titleKey ++ [' '] ++
              getStrD job descriptionTextKey))).length : ℚ)
      ((max (wordTokens (lowerStr job_function)).length 1 : ℕ) : ℚ)

lemma keyword_scoreE_ok (job : JobDict) (q : Str) :
    keyword_scoreE job q = .ok (keyword_score job q) := by
  unfold keyword_scoreE keyword_score
  split
  · rfl
  · rw [safeDiv, if_neg]
    simp only [Nat.cast_eq_zero]
    omega

/-- `calculate_job_match_score` with its two divisions routed through
`safeDiv`. -/
def calculate_job_match_scoreE (st : ResumeState)
    (job_description job_title : Str) : Except String ℚ :=
  if st.resumeText = [] then .ok 0
  else
    match (if (jobSkillsIn (jobTextLower job_description job_title)).Nonempty then
        safeDiv ((st.skills ∩ jobSkillsIn (jobTextLower job_description job_title)).card : ℚ)
          ((jobSkillsIn (jobTextLower job_description job_title)).card : ℚ)
      else .ok 0) with
    | .error e => .error e
    | .ok sratio =>
      match safeDiv ((((splitWs (lowerStr st.resumeText)).toFinset ∩
            (splitWs (jobTextLower job_description job_title)).toFinset).card : ℚ))
          ((max (splitWs (jobTextLower job_description job_title)).toFinset.card 1 : ℕ) : ℚ) with
      | .error e => .error e
      | .ok wratio =>
        .ok (min (sratio * 0.5 + min wratio 1 * 0.3 +
          (if st.jobTitles.any (fun et => (splitWs et).any fun w =>
            isSubstring w (lowerStr job_title)) then (0.8 : ℚ) else 0) * 0.2) 1)

lemma calculate_job_match_scoreE_ok (st : ResumeState) (jd jt : Str) :
    calculate_job_match_scoreE st jd jt = .ok (calculate_job_match_score st jd jt) := by
  unfold calculate_job_match_scoreE calculate_job_match_score
  split
  · rfl
  · have hw : ((max (splitWs (jobTextLower jd jt)).toFinset.card 1 : ℕ) : ℚ) ≠ 0 := by
      exact_mod_cast
        (by omega : max (splitWs (jobTextLower jd jt)).toFinset.card 1 ≠ 0)
    by_cases hs : (jobSkillsIn (jobTextLower jd jt)).Nonempty
    · have hpos : ((jobSkillsIn (jobTextLower jd jt)).card : ℚ) ≠ 0 := by
        have := Finset.card_pos.mpr hs
        exact_mod_cast Nat.pos_iff_ne_zero.mp this
      rw [if_pos hs, if_pos hs, safeDiv, if_neg hpos, safeDiv, if_neg hw]
    · rw [if_neg hs, if_neg hs, safeDiv, if_neg hw]
      norm_num

/-- **C10 counterexample.** The claim says every guarded case yields 0, but
the guard of the similarity token tier does not: on `("ab!", "ba!")` the
token intersection is empty — the division by the max token-set size is
skipped — and `calculate_similarity` falls through to the character-level
ratio, returning 2/3, not 0. -/
theorem sim_token_guard_fallthrough_nonzero :
    tokenSet (lowerStr "ab!".toList) ∩ tokenSet (lowerStr "ba!".toList) = ∅ ∧
    calculate_similarity "ab!".toList "ba!".toList ≠ 0 := by
  with_unfolding_all decide

/-- **C10 (amended).** Every division with a potentially zero denominator in
the core is guarded so that no division-by-zero fault can occur — the
`safeDiv` variants of the similarity scorer, the keyword coverage, the
job-fit scorer and the role-suggestion scores never return an error — and
the guarded keyword case yields 0; but the guarded similarity token-tier
case falls through to the character-level fallback ratio instead of
yielding 0. -/
theorem division_guards_sound :
    (∀ a b : Str, calculate_similarityE a b = .ok (calculate_similarity a b)) ∧
    (∀ (job : JobDict) (q : Str), keyword_scoreE job q = .ok (keyword_score job q)) ∧
    (∀ (st : ResumeState) (jd jt : Str),
      calculate_job_match_scoreE st jd jt = .ok (calculate_job_match_score st jd jt)) ∧
    (∀ skills : Finset Str,
      roleScoresListE roleMappings skills = .ok (roleScoresList roleMappings skills)) ∧
    (∀ (job : JobDict) (q : Str), wordTokens (lowerStr q) = [] →
      keyword_score job q = 0) ∧
    (∀ a b : Str, a ≠ [] → b ≠ [] →
      (isSubstring (lowerStr b) (lowerStr a)
        || isSubstring (lowerStr a) (lowerStr b)) = false →
      tokenSet (lowerStr a) ∩ tokenSet (lowerStr b) = ∅ →
      calculate_similarity a b = seqRatioQ (lowerStr a) (lowerStr b)) := by
  refine ⟨calculate_similarityE_ok, keyword_scoreE_ok,
    calculate_job_match_scoreE_ok, fun skills => roleScoresListE_ok _ skills,
    ?_, ?_⟩
  · intro job q h
    unfold keyword_score
    rw [if_pos h]
  · intro a b h1 h2 h3 h4
    exact sim_of_fallback (by tauto) h3 h4

/-- Witness for `division_guards_sound`: the token-free query scores 0, and
the `("ab!", "ba!")` pair falls through to the fallback ratio. -/
theorem division_guards_sound_witness :
    keyword_score [] "!!".toList = 0 ∧
    calculate_similarity "ab!".toList "ba!".toList =
      seqRatioQ (lowerStr "ab!".toList) (lowerStr "ba!".toList) :=
  ⟨division_guards_sound.2.2.2.2.1 [] _ (by decide),
   division_guards_sound.2.2.2.2.2 _ _ (by decide) (by decide) (by decide) (by decide)⟩
